import Mathlib

/-!
# Verification of the catalog / cart storefront

Shallow embedding of the repository's logic:

* `server/index.js` — the fixed in-memory catalog `products` and the
  filter/sort service `queryProducts`;
* `src/services/api.js` — the client fetch wrappers `fetchProducts` and
  `fetchProductById` with their cancellation behaviour;
* `src/App.jsx` — the cart state operations (`handleAddToCart`, `updateQty`,
  `incQty`, `decQty`, `removeItem`) and the derived values `cartCount`,
  `cartItems`, `cartTotal`, plus the effect that supersedes in-flight
  catalog requests.

Conventions of the embedding:

* JS numbers are modelled as `ℚ` (prices, parsed bounds); quantities as `ℤ`.
* `parseFloat` is modelled by `jsParseFloat` following the ECMAScript
  `parseFloat` algorithm on decimal string literals (longest valid numeric
  prefix; `Infinity`; `NaN` when no prefix parses).
* `String.prototype.toLowerCase` is modelled by `jsToLower` (ASCII and
  Latin-1 letters, which covers the catalog's character set).
* `Array.prototype.sort` is stable per ES2019; a stable sort for a total
  transitive comparator is extensionally unique, so it is modelled by
  `List.insertionSort` (which Mathlib proves sorted and stable).
* `localeCompare` collation is modelled by code-point order on `String`
  (Mathlib's `LinearOrder String`); on the catalog's titles every comparison
  is decided at an unaccented Latin letter, where locale collation and
  code-point order agree.
-/

namespace Shop

open List

/-- A catalog record, after `server/index.js` (`products` array element). -/
structure Product where
  id : String
  title : String
  description : String
  price : ℚ
  images : List String
  category : String
  colors : List String
  sizes : List String
  stock : Nat
  featured : Bool
deriving Repr, DecidableEq

/-- First catalog record of `server/index.js` (`hat-01`). -/
def hat01 : Product :=
  { id := "hat-01"
  , title := "Gorro Clásico"
  , description := "Gorro tejido clásico, abrigado y cómodo para el día a día."
  , price := (1999 : ℚ) / 100
  , images := ["/GorroNY.JPG"]
  , category := "hats"
  , colors := ["negro", "gris", "azul"]
  , sizes := ["única"]
  , stock := 42
  , featured := true }

/-- Second catalog record of `server/index.js` (`hat-02`). -/
def hat02 : Product :=
  { id := "hat-02"
  , title := "Beanie Urbano"
  , description := "Estilo urbano con tejido elástico y suave."
  , price := (2499 : ℚ) / 100
  , images := ["/GorroNY.JPG"]
  , category := "hats"
  , colors := ["negro", "verde"]
  , sizes := ["única"]
  , stock := 25
  , featured := false }

/-- Third catalog record of `server/index.js` (`hoodie-01`). -/
def hoodie01 : Product :=
  { id := "hoodie-01"
  , title := "Sudadera Básica"
  , description := "Sudadera con capucha de algodón orgánico, ultra cómoda."
  , price := (3999 : ℚ) / 100
  , images := ["/hoodie_PNG25-1774699148.png"]
  , category := "hoodies"
  , colors := ["negro", "blanco", "azul"]
  , sizes := ["S", "M", "L", "XL"]
  , stock := 30
  , featured := true }

/-- Fourth catalog record of `server/index.js` (`hoodie-02`). -/
def hoodie02 : Product :=
  { id := "hoodie-02"
  , title := "Sudadera Oversize"
  , description := "Corte oversize para un look relajado, interior afelpado."
  , price := (4999 : ℚ) / 100
  , images := ["/sudaderaoversize.png"]
  , category := "hoodies"
  , colors := ["gris", "beige"]
  , sizes := ["M", "L", "XL"]
  , stock := 12
  , featured := false }

/-- The fixed four-product catalog baked into `server/index.js`, in its
insertion order. -/
def products : List Product := [hat01, hat02, hoodie01, hoodie02]

/-- Filter criteria as received from the query string: every field is either
absent (`none`) or a string, exactly as `req.query` provides them. -/
structure Criteria where
  category : Option String := none
  q : Option String := none
  minPrice : Option String := none
  maxPrice : Option String := none
  sort : Option String := none
deriving Repr, DecidableEq

/-- The `{ items, total }` shape returned by `queryProducts`. -/
structure QueryResult where
  items : List Product
  total : Nat
deriving Repr, DecidableEq

/-- JS truthiness of an optional string (`undefined` and `""` are falsy,
every other string is truthy), as used by `if (category)` / `if (q)` /
`if (sort)` in `queryProducts`. -/
def truthy : Option String → Bool
  | none => false
  | some s => !(s == "")

/-- Model of `String.prototype.toLowerCase` on one character: ASCII
`A`–`Z` and Latin-1 `À`–`Þ` (except `×`) shift to their lowercase forms;
everything else is unchanged.  This covers every character occurring in the
catalog and in ASCII search terms. -/
def jsCharToLower (c : Char) : Char :=
  if 'A' ≤ c ∧ c ≤ 'Z' then Char.ofNat (c.toNat + 32)
  else if 'À' ≤ c ∧ c ≤ 'Þ' ∧ c ≠ '×' then Char.ofNat (c.toNat + 32)
  else c

/-- Model of `String.prototype.toLowerCase`. -/
def jsToLower (s : String) : String := ⟨s.data.map jsCharToLower⟩

/-- `needle` occurs as a contiguous substring of `hay` (model of
`String.prototype.includes`, on character lists). -/
def listIncludes (needle : List Char) : List Char → Bool
  | [] => needle.isEmpty
  | c :: cs => needle.isPrefixOf (c :: cs) || listIncludes needle cs

/-- Model of `hay.includes(needle)` for JS strings. -/
def strIncludes (hay needle : String) : Bool :=
  listIncludes needle.data hay.data

/-- A JS number as produced by `parseFloat`: `NaN`, a signed infinity, or a
finite value (modelled exactly in `ℚ`). -/
inductive JsNum where
  | nan : JsNum
  | inf (pos : Bool) : JsNum
  | num (q : ℚ) : JsNum
deriving Repr, DecidableEq

/-- Numeric value of a digit list, most significant first. -/
def digitsVal (ds : List Char) : Nat :=
  ds.foldl (fun a c => a * 10 + (c.toNat - 48)) 0

/-- Apply a decimal exponent to a mantissa (`m * 10 ^ e` over `ℚ`). -/
def applyExp (m : ℚ) (e : Int) : ℚ :=
  if 0 ≤ e then m * 10 ^ e.toNat else m / 10 ^ (-e).toNat

/-- The characters of the bound string after the optional leading
whitespace and the optional sign character. -/
def afterSign (s : String) : List Char :=
  match s.data.dropWhile Char.isWhitespace with
  | '-' :: t => t
  | '+' :: t => t
  | cs => cs

/-- Whether the bound string carries a leading minus sign. -/
def signOf (s : String) : Bool :=
  match s.data.dropWhile Char.isWhitespace with
  | '-' :: _ => true
  | _ => false

/-- The unsigned part of the `parseFloat` algorithm, on the characters
after whitespace and sign: `Infinity`, or the longest decimal literal
(`digits [. digits] [exponent]` or `. digits [exponent]`); `NaN` when no
such prefix exists. -/
def parseCore (neg : Bool) (cs : List Char) : JsNum :=
  if ("Infinity".data).isPrefixOf cs then JsNum.inf (!neg)
  else
    let intDs := cs.takeWhile Char.isDigit
    let cs1 := cs.dropWhile Char.isDigit
    let fracSplit : List Char × List Char :=
      match cs1 with
      | '.' :: t => (t.takeWhile Char.isDigit, t.dropWhile Char.isDigit)
      | _ => ([], cs1)
    let fracDs := fracSplit.1
    let cs2 := fracSplit.2
    if intDs.isEmpty && fracDs.isEmpty then JsNum.nan
    else
      let exp : Int :=
        match cs2 with
        | e :: t =>
          if e == 'e' || e == 'E' then
            let esigned : Bool × List Char :=
              match t with
              | '-' :: u => (true, u)
              | '+' :: u => (false, u)
              | _ => (false, t)
            let eds := esigned.2.takeWhile Char.isDigit
            if eds.isEmpty then 0
            else if esigned.1 then -(digitsVal eds : Int) else (digitsVal eds : Int)
          else 0
        | [] => 0
      let mant : ℚ := (digitsVal intDs : ℚ) + (digitsVal fracDs : ℚ) / 10 ^ fracDs.length
      let v := applyExp mant exp
      JsNum.num (if neg then -v else v)

/-- Model of ECMAScript `parseFloat`: skip leading whitespace, read an
optional sign, then parse the remainder with `parseCore`. -/
def jsParseFloat (s : String) : JsNum :=
  parseCore (signOf s) (afterSign s)

/-- JS `price >= bound` where `price` is finite and `bound` is a
`parseFloat` result (`NaN` compares false). -/
def jsGe (price : ℚ) : JsNum → Bool
  | JsNum.nan => false
  | JsNum.inf pos => !pos
  | JsNum.num m => price ≥ m

/-- JS `price <= bound` where `price` is finite (`NaN` compares false). -/
def jsLe (price : ℚ) : JsNum → Bool
  | JsNum.nan => false
  | JsNum.inf pos => pos
  | JsNum.num m => price ≤ m

/-- Stage 1 of `queryProducts`: `if (category) result.filter(p => p.category === category)`. -/
def applyCategory (category : Option String) (l : List Product) : List Product :=
  match category with
  | none => l
  | some s => if s == "" then l else l.filter (fun p => p.category == s)

/-- Stage 2 of `queryProducts`: lower-cased substring search over title and
description (`if (q) { const term = q.toLowerCase(); ... }`). -/
def applyQ (q : Option String) (l : List Product) : List Product :=
  match q with
  | none => l
  | some s =>
    if s == "" then l
    else
      let term := jsToLower s
      l.filter (fun p =>
        strIncludes (jsToLower p.title) term || strIncludes (jsToLower p.description) term)

/-- Stage 3 of `queryProducts`: `const min = parseFloat(minPrice);
if (!Number.isNaN(min)) result.filter(p => p.price >= min)`, applied only
when `minPrice !== undefined`. -/
def applyMin (minPrice : Option String) (l : List Product) : List Product :=
  match minPrice with
  | none => l
  | some s =>
    match jsParseFloat s with
    | JsNum.nan => l
    | v => l.filter (fun p => jsGe p.price v)

/-- Stage 4 of `queryProducts`: symmetric max-price filter. -/
def applyMax (maxPrice : Option String) (l : List Product) : List Product :=
  match maxPrice with
  | none => l
  | some s =>
    match jsParseFloat s with
    | JsNum.nan => l
    | v => l.filter (fun p => jsLe p.price v)

/-- Comparator relation of `(a, b) => a.price - b.price` (a before b iff the
comparator is ≤ 0). -/
def priceAscR (a b : Product) : Prop := a.price ≤ b.price

/-- Comparator relation of `(a, b) => b.price - a.price`. -/
def priceDescR (a b : Product) : Prop := b.price ≤ a.price

/-- Comparator relation of `(a, b) => a.title.localeCompare(b.title)`,
collation modelled by code-point order on strings. -/
def titleAscR (a b : Product) : Prop := a.title ≤ b.title

instance : DecidableRel priceAscR := fun a b => inferInstanceAs (Decidable (a.price ≤ b.price))

instance : DecidableRel priceDescR := fun a b => inferInstanceAs (Decidable (b.price ≤ a.price))

instance : DecidableRel titleAscR := fun a b => inferInstanceAs (Decidable (a.title ≤ b.title))

/-- Stage 5 of `queryProducts`: the three mutually exclusive sort branches
guarded by `if (sort)`; ES2019 `Array.prototype.sort` is stable, modelled by
the (unique) stable sort `List.insertionSort`. -/
def applySort (sort : Option String) (l : List Product) : List Product :=
  match sort with
  | none => l
  | some s =>
    if s == "" then l
    else if s == "price_asc" then l.insertionSort priceAscR
    else if s == "price_desc" then l.insertionSort priceDescR
    else if s == "title_asc" then l.insertionSort titleAscR
    else l

/-- The filter pipeline of `queryProducts` before the sort stage, in the
source's order: category, text, min price, max price. -/
def filteredItems (c : Criteria) : List Product :=
  applyMax c.maxPrice (applyMin c.minPrice (applyQ c.q (applyCategory c.category products)))

/-- `queryProducts` from `server/index.js`: filter stages, sort stage, and
the `{ items, total: items.length }` response. -/
def queryProducts (c : Criteria) : QueryResult :=
  let result := applySort c.sort (filteredItems c)
  { items := result, total := result.length }

/-- The non-strict key comparison current under a given `sort` value: the
relation by which the active comparator orders the items (`True` when no
recognized sort is active).  Equal sort keys satisfy it in both directions,
so stability for equal keys is the special case of stability under it. -/
def sortLeKey (sort : Option String) (a b : Product) : Prop :=
  match sort with
  | none => True
  | some s =>
    if s == "" then True
    else if s == "price_asc" then priceAscR a b
    else if s == "price_desc" then priceDescR a b
    else if s == "title_asc" then titleAscR a b
    else True

instance : IsTotal Product priceAscR := ⟨fun a b => le_total a.price b.price⟩

instance : IsTrans Product priceAscR := ⟨fun _ _ _ h₁ h₂ => le_trans h₁ h₂⟩

instance : IsTotal Product priceDescR := ⟨fun a b => le_total b.price a.price⟩

instance : IsTrans Product priceDescR := ⟨fun _ _ _ h₁ h₂ => le_trans h₂ h₁⟩

instance : IsTotal Product titleAscR := ⟨fun a b => le_total a.title b.title⟩

instance : IsTrans Product titleAscR := ⟨fun _ _ _ h₁ h₂ => le_trans h₁ h₂⟩

theorem applyCategory_sublist (category : Option String) (l : List Product) :
    applyCategory category l <+ l := by
  unfold applyCategory
  cases category with
  | none => exact List.Sublist.refl l
  | some s =>
    by_cases h : s == ""
    · simp [h]
    · simp only [h, if_false]
      exact List.filter_sublist l

theorem applyQ_sublist (q : Option String) (l : List Product) :
    applyQ q l <+ l := by
  unfold applyQ
  cases q with
  | none => exact List.Sublist.refl l
  | some s =>
    by_cases h : s == ""
    · simp [h]
    · simp only [h, if_false]
      exact List.filter_sublist l

theorem applyMin_sublist (minPrice : Option String) (l : List Product) :
    applyMin minPrice l <+ l := by
  cases minPrice with
  | none => exact List.Sublist.refl l
  | some s =>
    simp only [applyMin]
    cases jsParseFloat s with
    | nan => exact List.Sublist.refl l
    | inf pos => exact List.filter_sublist l
    | num q => exact List.filter_sublist l

theorem applyMax_sublist (maxPrice : Option String) (l : List Product) :
    applyMax maxPrice l <+ l := by
  cases maxPrice with
  | none => exact List.Sublist.refl l
  | some s =>
    simp only [applyMax]
    cases jsParseFloat s with
    | nan => exact List.Sublist.refl l
    | inf pos => exact List.filter_sublist l
    | num q => exact List.filter_sublist l

/-- The filter pipeline keeps a subsequence of the catalog: the items it
passes through stay in the Catalog Store's insertion order. -/
theorem filteredItems_sublist (c : Criteria) : filteredItems c <+ products :=
  ((applyMax_sublist _ _).trans ((applyMin_sublist _ _).trans
    (applyQ_sublist _ _))).trans (applyCategory_sublist _ _)

theorem mem_applySort {p : Product} (sort : Option String) (l : List Product) :
    p ∈ applySort sort l ↔ p ∈ l := by
  unfold applySort
  cases sort with
  | none => exact Iff.rfl
  | some s =>
    by_cases h0 : s == ""
    · simp [h0]
    · by_cases h1 : s == "price_asc"
      · simp [h0, h1, List.mem_insertionSort]
      · by_cases h2 : s == "price_desc"
        · simp [h0, h1, h2, List.mem_insertionSort]
        · by_cases h3 : s == "title_asc"
          · simp [h0, h1, h2, h3, List.mem_insertionSort]
          · simp [h0, h1, h2, h3]

theorem queryProducts_items (c : Criteria) :
    (queryProducts c).items = applySort c.sort (filteredItems c) := rfl

/-- C1: on the fixed four-product catalog, the query
`{category: "hats", sort: "price_desc"}` returns exactly
`[Beanie Urbano (24.99), Gorro Clásico (19.99)]` in that order with
`total = 2`, and the query `{minPrice: "30"}` returns exactly the two
hoodie records. -/
theorem c1_catalog_examples :
    queryProducts { category := some "hats", sort := some "price_desc" }
      = { items := [hat02, hat01], total := 2 } ∧
    queryProducts { minPrice := some "30" }
      = { items := [hoodie01, hoodie02], total := 2 } := by
  constructor
  · with_unfolding_all rfl
  · with_unfolding_all rfl

/-- C2: the sort stage of `queryProducts`, for every criteria: `price_asc`
yields non-decreasing prices, `price_desc` non-increasing prices,
`title_asc` ascending titles under the (modelled) locale comparison; an
unset or unrecognized `sort` keeps the filtered items exactly in the
Catalog Store's insertion order (the filtered list is a subsequence of the
store); and the ordering is stable: any pair in filter order whose sort
keys are compatible (in particular, equal) stays in that relative order. -/
theorem c2_sort_stage (c : Criteria) :
    (c.sort = some "price_asc" →
      ((queryProducts c).items.map Product.price).Sorted (· ≤ ·)) ∧
    (c.sort = some "price_desc" →
      ((queryProducts c).items.map Product.price).Sorted (· ≥ ·)) ∧
    (c.sort = some "title_asc" →
      ((queryProducts c).items.map Product.title).Sorted (· ≤ ·)) ∧
    (c.sort ∉ ([some "price_asc", some "price_desc", some "title_asc"] :
        List (Option String)) →
      (queryProducts c).items = filteredItems c) ∧
    filteredItems c <+ products ∧
    (∀ a b : Product, [a, b] <+ filteredItems c → sortLeKey c.sort a b →
      [a, b] <+ (queryProducts c).items) := by
  refine ⟨?_, ?_, ?_, ?_, filteredItems_sublist c, ?_⟩
  · intro h
    have hitems : (queryProducts c).items = (filteredItems c).insertionSort priceAscR := by
      rw [queryProducts_items, h]; with_unfolding_all rfl
    rw [hitems]
    exact List.pairwise_map.mpr (List.sorted_insertionSort priceAscR _)
  · intro h
    have hitems : (queryProducts c).items = (filteredItems c).insertionSort priceDescR := by
      rw [queryProducts_items, h]; with_unfolding_all rfl
    rw [hitems]
    exact List.pairwise_map.mpr (List.sorted_insertionSort priceDescR _)
  · intro h
    have hitems : (queryProducts c).items = (filteredItems c).insertionSort titleAscR := by
      rw [queryProducts_items, h]; with_unfolding_all rfl
    rw [hitems]
    exact List.pairwise_map.mpr (List.sorted_insertionSort titleAscR _)
  · intro hnot
    simp only [List.mem_cons, List.not_mem_nil, not_or, or_false] at hnot
    obtain ⟨h1, h2, h3⟩ := hnot
    rw [queryProducts_items]
    cases hc : c.sort with
    | none => rfl
    | some s =>
      rw [hc] at h1 h2 h3
      simp only [applySort]
      by_cases h0 : s == ""
      · simp [h0]
      · have e1 : (s == "price_asc") = false := by
          simp only [beq_eq_false_iff_ne, ne_eq]
          intro he; exact h1 (by rw [he])
        have e2 : (s == "price_desc") = false := by
          simp only [beq_eq_false_iff_ne, ne_eq]
          intro he; exact h2 (by rw [he])
        have e3 : (s == "title_asc") = false := by
          simp only [beq_eq_false_iff_ne, ne_eq]
          intro he; exact h3 (by rw [he])
        simp [h0, e1, e2, e3]
  · intro a b hsub hkey
    rw [queryProducts_items]
    cases hc : c.sort with
    | none => exact hsub
    | some s =>
      rw [hc] at hkey
      simp only [sortLeKey] at hkey
      simp only [applySort]
      by_cases h0 : s == ""
      · simpa [h0] using hsub
      · by_cases h1 : s == "price_asc"
        · rw [if_neg (by simp [h0]), if_pos h1]
          rw [if_neg h0, if_pos h1] at hkey
          exact List.pair_sublist_insertionSort hkey hsub
        · by_cases h2 : s == "price_desc"
          · rw [if_neg (by simp [h0]), if_neg (by simp [h1]), if_pos h2]
            rw [if_neg h0, if_neg h1, if_pos h2] at hkey
            exact List.pair_sublist_insertionSort hkey hsub
          · by_cases h3 : s == "title_asc"
            · rw [if_neg (by simp [h0]), if_neg (by simp [h1]), if_neg (by simp [h2]),
                if_pos h3]
              rw [if_neg h0, if_neg h1, if_neg h2, if_pos h3] at hkey
              exact List.pair_sublist_insertionSort hkey hsub
            · rw [if_neg (by simp [h0]), if_neg (by simp [h1]), if_neg (by simp [h2]),
                if_neg (by simp [h3])]
              exact hsub

/-- Witness for `c2_sort_stage`: at the criteria `{sort: "price_asc"}` the
returned prices are non-decreasing, and at a criteria with an unrecognized
sort value the items equal the unsorted filtered list. -/
theorem c2_sort_stage_witness :
    ((queryProducts { sort := some "price_asc" }).items.map Product.price).Sorted (· ≤ ·) ∧
    (queryProducts { sort := some "nonsense" }).items
      = filteredItems { sort := some "nonsense" } :=
  ⟨(c2_sort_stage { sort := some "price_asc" }).1 rfl,
   (c2_sort_stage { sort := some "nonsense" }).2.2.2.1 (by decide)⟩

/-! ## Cart state (`src/App.jsx`)

The cart is the JS object `{ [productId]: quantity }`, modelled as an
insertion-ordered association list (JS objects preserve insertion order of
string keys; assigning an existing key keeps its position, assigning a new
key appends, `delete` removes it). -/

/-- Cart state: insertion-ordered `productId → quantity` entries. -/
abbrev Cart : Type := List (String × Int)

/-- `prev[id] || 0` — the stored quantity, or `0` when the key is absent
(a stored `0` is falsy and also yields `0`, the same value). -/
def cartGet (c : Cart) (id : String) : Int :=
  ((c.find? (fun p => p.1 == id)).map Prod.snd).getD 0

/-- Whether the object has the key `id`. -/
def hasKey (c : Cart) (id : String) : Bool :=
  c.any (fun p => p.1 == id)

/-- `{ ...prev, [id]: q }`: keep an existing key in place with the new
value, or append a new key at the end. -/
def setEntry (c : Cart) (id : String) (q : Int) : Cart :=
  if hasKey c id then c.map (fun p => if p.1 == id then (id, q) else p)
  else c ++ [(id, q)]

/-- `updateQty` from `App.jsx`: delete the key when `qty <= 0`, otherwise
store `qty`. -/
def updateQty (c : Cart) (id : String) (qty : Int) : Cart :=
  if qty ≤ 0 then c.filter (fun p => !(p.1 == id)) else setEntry c id qty

/-- `handleAddToCart` from `App.jsx`:
`{ ...prev, [id]: (prev[id] || 0) + 1 }`. -/
def handleAddToCart (c : Cart) (id : String) : Cart :=
  setEntry c id (cartGet c id + 1)

/-- `incQty` from `App.jsx`: `updateQty(id, (cart[id] || 0) + 1)`. -/
def incQty (c : Cart) (id : String) : Cart :=
  updateQty c id (cartGet c id + 1)

/-- `decQty` from `App.jsx`: `updateQty(id, (cart[id] || 0) - 1)`. -/
def decQty (c : Cart) (id : String) : Cart :=
  updateQty c id (cartGet c id - 1)

/-- `removeItem` from `App.jsx`: `updateQty(id, 0)`. -/
def removeItem (c : Cart) (id : String) : Cart :=
  updateQty c id 0

/-- The cart operations available to the UI. -/
inductive CartOp where
  | add (id : String)
  | setQ (id : String) (qty : Int)
  | inc (id : String)
  | dec (id : String)
  | remove (id : String)

/-- Apply one cart operation. -/
def applyOp (c : Cart) : CartOp → Cart
  | CartOp.add id => handleAddToCart c id
  | CartOp.setQ id q => updateQty c id q
  | CartOp.inc id => incQty c id
  | CartOp.dec id => decQty c id
  | CartOp.remove id => removeItem c id

/-- Run a sequence of cart operations from the empty cart (the session's
initial state `useState({})`). -/
def runOps (ops : List CartOp) : Cart :=
  ops.foldl applyOp []

/-- Every stored quantity is strictly positive. -/
def allPos (c : Cart) : Prop := ∀ p ∈ c, 0 < p.2

/-- The object's keys are pairwise distinct. -/
def keysNodup (c : Cart) : Prop := (c.map Prod.fst).Nodup

/-- Well-formedness of a cart state: distinct keys and positive
quantities. -/
def CartWF (c : Cart) : Prop := keysNodup c ∧ allPos c

theorem cartGet_nonneg {c : Cart} (h : allPos c) (id : String) : 0 ≤ cartGet c id := by
  unfold cartGet
  cases hf : c.find? (fun p => p.1 == id) with
  | none => simp
  | some p =>
    have hp : p ∈ c := List.mem_of_find?_eq_some hf
    simpa using (h p hp).le

theorem allPos_setEntry {c : Cart} {q : Int} (h : allPos c) (hq : 0 < q) (id : String) :
    allPos (setEntry c id q) := by
  unfold setEntry
  by_cases hk : hasKey c id
  · simp only [hk, if_true]
    intro p hp
    obtain ⟨p₀, hp₀, rfl⟩ := List.mem_map.mp hp
    by_cases he : p₀.1 == id
    · simpa [he] using hq
    · simpa [he] using h p₀ hp₀
  · simp only [hk, if_false]
    intro p hp
    rcases List.mem_append.mp hp with h₁ | h₂
    · exact h p h₁
    · simp only [List.mem_singleton] at h₂
      simpa [h₂] using hq

theorem allPos_updateQty {c : Cart} (h : allPos c) (id : String) (q : Int) :
    allPos (updateQty c id q) := by
  unfold updateQty
  by_cases hq : q ≤ 0
  · simp only [hq, if_true]
    intro p hp
    exact h p (List.mem_of_mem_filter hp)
  · simp only [hq, if_false]
    exact allPos_setEntry h (lt_of_not_le hq) id

theorem allPos_applyOp {c : Cart} (h : allPos c) (op : CartOp) :
    allPos (applyOp c op) := by
  cases op with
  | add id =>
    exact allPos_setEntry h (by have := cartGet_nonneg h id; omega) id
  | setQ id q => exact allPos_updateQty h id q
  | inc id => exact allPos_updateQty h id _
  | dec id => exact allPos_updateQty h id _
  | remove id => exact allPos_updateQty h id 0

/-- C5: starting from the empty cart, after any sequence of add,
setQuantity, increment, decrement and remove operations, the cart never
contains an entry whose quantity is `≤ 0`. -/
theorem c5_no_nonpositive_entries (ops : List CartOp) :
    ∀ p ∈ runOps ops, 0 < p.2 := by
  suffices h : ∀ (c : Cart), allPos c → allPos (ops.foldl applyOp c) from
    h [] (by intro p hp; cases hp)
  induction ops with
  | nil => exact fun c hc => hc
  | cons op ops ih =>
    intro c hc
    exact ih _ (allPos_applyOp hc op)

/-- Witness for `c5_no_nonpositive_entries`: after `add "hat-01"`,
`dec "hat-01"` would remove the entry, and the surviving entry of
`[add "hat-01", add "hat-01"]` has quantity `2 > 0`. -/
theorem c5_no_nonpositive_entries_witness :
    0 < (("hat-01", (2 : Int)) : String × Int).2 :=
  c5_no_nonpositive_entries [CartOp.add "hat-01", CartOp.add "hat-01"]
    ("hat-01", 2) (by decide)

theorem find?_of_hasKey_eq_false {c : Cart} {id : String}
    (h : hasKey c id = false) : c.find? (fun p => p.1 == id) = none := by
  rw [List.find?_eq_none]
  intro p hp
  exact (List.any_eq_false.mp h) p hp

theorem keys_eq_of_none {c : Cart} {id : String}
    (h : c.find? (fun p => p.1 == id) = none) : ∀ p ∈ c, (p.1 == id) = false := by
  intro p hp
  have hne := List.find?_eq_none.mp h p hp
  simpa using hne

theorem find?_mapSet {c : Cart} {id : String} (q : Int)
    (h : hasKey c id = true) :
    (c.map (fun p => if p.1 == id then (id, q) else p)).find? (fun p => p.1 == id)
      = some (id, q) := by
  induction c with
  | nil => simp [hasKey] at h
  | cons p cs ih =>
    by_cases hp : p.1 == id
    · simp only [List.map_cons, hp, if_true]
      exact List.find?_cons_of_pos _ (by simp)
    · simp only [List.map_cons, hp, Bool.false_eq_true, if_false]
      rw [List.find?_cons_of_neg _ (by simpa using hp)]
      have h' : hasKey cs id = true := by
        rcases List.any_eq_true.mp h with ⟨r, hr, hrid⟩
        rcases List.mem_cons.mp hr with rfl | hr'
        · exact absurd hrid (by simpa using hp)
        · exact List.any_eq_true.mpr ⟨r, hr', hrid⟩
      exact ih h'

theorem hasKey_of_find? {c : Cart} {id : String} {p : String × Int}
    (h : c.find? (fun r => r.1 == id) = some p) : hasKey c id = true := by
  have hmem : p ∈ c := List.mem_of_find?_eq_some h
  have hpred : ((fun r : String × Int => r.1 == id) p) = true :=
    List.find?_some (p := fun r : String × Int => r.1 == id) h
  exact List.any_eq_true.mpr ⟨p, hmem, hpred⟩

theorem cartGet_setEntry (c : Cart) (id : String) (q : Int) :
    cartGet (setEntry c id q) id = q := by
  unfold setEntry
  by_cases hk : hasKey c id
  · rw [if_pos hk]
    unfold cartGet
    rw [find?_mapSet q hk]
    rfl
  · rw [if_neg hk]
    have hkf : hasKey c id = false := by simpa using hk
    unfold cartGet
    rw [List.find?_append, find?_of_hasKey_eq_false hkf]
    simp

theorem map_set_id {c : Cart} {id : String}
    (h : ∀ p ∈ c, (p.1 == id) = false) (q : Int) :
    c.map (fun p => if p.1 == id then (id, q) else p) = c := by
  induction c with
  | nil => rfl
  | cons p cs ih =>
    have hp := h p (List.mem_cons_self p cs)
    simp only [List.map_cons, hp, Bool.false_eq_true, if_false]
    rw [ih (fun r hr => h r (List.mem_cons_of_mem p hr))]

theorem map_set_found {c : Cart} {id : String} {q : Int}
    (hnd : keysNodup c) (hfind : c.find? (fun p => p.1 == id) = some (id, q)) :
    c.map (fun p => if p.1 == id then (id, q) else p) = c := by
  induction c with
  | nil => simp at hfind
  | cons p cs ih =>
    by_cases hp : p.1 == id
    · have hpe : p = (id, q) := by
        have h2 : (p :: cs).find? (fun r => r.1 == id) = some p :=
          List.find?_cons_of_pos _ hp
        rw [h2] at hfind
        exact Option.some_inj.mp hfind
      have hid : p.1 = id := by simpa using hp
      have hrest : ∀ r ∈ cs, (r.1 == id) = false := by
        intro r hr
        have hnot : p.1 ∉ cs.map Prod.fst := (List.nodup_cons.mp hnd).1
        have hne : r.1 ≠ id := by
          intro he
          exact hnot (hid ▸ he ▸ List.mem_map_of_mem Prod.fst hr)
        simpa using hne
      simp only [List.map_cons, hp, if_true]
      rw [map_set_id hrest q, hpe]
    · have hfind' : cs.find? (fun r => r.1 == id) = some (id, q) := by
        rwa [List.find?_cons_of_neg _ (by simpa using hp)] at hfind
      have hnd' : keysNodup cs := (List.nodup_cons.mp hnd).2
      simp only [List.map_cons, hp, Bool.false_eq_true, if_false]
      rw [ih hnd' hfind']

/-- Writing back the value an existing unique key already holds is the
identity. -/
theorem setEntry_found_eq {c : Cart} {id : String} {q : Int}
    (hnd : keysNodup c) (hfind : c.find? (fun p => p.1 == id) = some (id, q)) :
    setEntry c id q = c := by
  unfold setEntry
  rw [if_pos (hasKey_of_find? hfind)]
  exact map_set_found hnd hfind

/-- Overwriting twice at the same key collapses to one write. -/
theorem setEntry_setEntry (c : Cart) (id : String) (q q' : Int) :
    setEntry (setEntry c id q) id q' = setEntry c id q' := by
  by_cases hk : hasKey c id
  · have hinner : setEntry c id q
        = c.map (fun p => if p.1 == id then (id, q) else p) := by
      unfold setEntry; rw [if_pos hk]
    have hk2 : hasKey (c.map (fun p => if p.1 == id then (id, q) else p)) id = true :=
      hasKey_of_find? (find?_mapSet q hk)
    rw [hinner]
    unfold setEntry
    rw [if_pos hk2, if_pos hk]
    rw [List.map_map]
    apply List.map_congr_left
    intro p _
    by_cases hp : p.1 == id
    · simp [Function.comp, hp]
    · simp [Function.comp, hp]
  · have hkf : hasKey c id = false := by simpa using hk
    have hinner : setEntry c id q = c ++ [(id, q)] := by
      unfold setEntry; rw [if_neg hk]
    have hfind := find?_of_hasKey_eq_false hkf
    have hk2 : hasKey (c ++ [(id, q)]) id = true := by
      apply List.any_eq_true.mpr
      exact ⟨(id, q), by simp, by simp⟩
    rw [hinner]
    unfold setEntry
    rw [if_pos hk2, if_neg hk]
    rw [List.map_append]
    rw [map_set_id (keys_eq_of_none hfind) q']
    simp

/-- C6: on any well-formed cart state (distinct keys, positive quantities —
the invariant of every reachable cart state), `increment(id)` immediately
followed by `decrement(id)` restores the cart exactly: a present entry gets
its prior quantity back, and an id that was absent stays absent. -/
theorem c6_inc_then_dec (c : Cart) (id : String) (h : CartWF c) :
    decQty (incQty c id) id = c := by
  obtain ⟨hnd, hpos⟩ := h
  by_cases hk : hasKey c id
  · have hsome : (c.find? (fun r => r.1 == id)).isSome := by
      rcases List.any_eq_true.mp hk with ⟨x, hx, hpx⟩
      exact List.find?_isSome.mpr ⟨x, hx, hpx⟩
    obtain ⟨p, hfind⟩ := Option.isSome_iff_exists.mp hsome
    have hid : p.1 = id := by
      simpa using List.find?_some (p := fun r : String × Int => r.1 == id) hfind
    have hq₀ : 0 < p.2 := hpos p (List.mem_of_find?_eq_some hfind)
    have hget : cartGet c id = p.2 := by
      unfold cartGet; rw [hfind]; rfl
    have hinc : incQty c id = setEntry c id (p.2 + 1) := by
      unfold incQty updateQty
      rw [hget, if_neg (by omega)]
    have hget2 : cartGet (setEntry c id (p.2 + 1)) id = p.2 + 1 :=
      cartGet_setEntry c id (p.2 + 1)
    have hdec : decQty (incQty c id) id = setEntry (setEntry c id (p.2 + 1)) id p.2 := by
      unfold decQty updateQty
      rw [hinc, hget2]
      have he : p.2 + 1 - 1 = p.2 := by omega
      rw [he, if_neg (by omega)]
    rw [hdec, setEntry_setEntry]
    have hpe : ((id, p.2) : String × Int) = p := by
      rw [← hid]
    exact setEntry_found_eq hnd (by rw [hpe]; exact hfind)
  · have hkf : hasKey c id = false := by simpa using hk
    have hfind := find?_of_hasKey_eq_false hkf
    have hget : cartGet c id = 0 := by
      unfold cartGet; rw [hfind]; rfl
    have hinc : incQty c id = c ++ [(id, 1)] := by
      unfold incQty updateQty
      rw [hget, if_neg (by omega)]
      unfold setEntry
      rw [if_neg hk]
      norm_num
    have hget2 : cartGet (c ++ [(id, 1)]) id = 1 := by
      unfold cartGet
      rw [List.find?_append, hfind]
      simp
    unfold decQty updateQty
    rw [hinc, hget2, if_pos (by omega)]
    rw [List.filter_append]
    have h1 : c.filter (fun p => !(p.1 == id)) = c :=
      List.filter_eq_self.mpr (fun p hp => by rw [keys_eq_of_none hfind p hp]; rfl)
    have h2 : ([((id : String), (1 : Int))].filter (fun p => !(p.1 == id))) = [] := by
      simp
    rw [h1, h2, List.append_nil]

/-- Witness for `c6_inc_then_dec`: on the well-formed cart
`[("hat-01", 2)]`, incrementing then decrementing `"hat-02"` (absent) and
`"hat-01"` (present) both restore the cart. -/
theorem c6_inc_then_dec_witness :
    decQty (incQty [(("hat-01" : String), (2 : Int))] "hat-02") "hat-02"
      = [(("hat-01" : String), (2 : Int))] :=
  c6_inc_then_dec [(("hat-01" : String), (2 : Int))] "hat-02"
    ⟨by unfold keysNodup; decide, by unfold allPos; decide⟩

/-- `cartCount` from `App.jsx`:
`Object.values(cart).reduce((acc, qty) => acc + qty, 0)`. -/
def cartCount (c : Cart) : Int :=
  (c.map Prod.snd).foldl (· + ·) 0

/-- The local product cache `productMap` (merged from query responses),
looked up by product id (`productsById[id]`). -/
def productsById (cache : List Product) (id : String) : Option Product :=
  cache.find? (fun pr => pr.id == id)

/-- `cartItems` from `App.jsx`: join cart entries against the product
cache and drop entries whose product is not cached
(`.map(([id, qty]) => ({product: productsById[id], qty})).filter(i => i.product)`). -/
def cartItems (cache : List Product) (c : Cart) : List (Product × Int) :=
  c.filterMap (fun e => (productsById cache e.1).map (fun pr => (pr, e.2)))

/-- `cartTotal` from `App.jsx`:
`cartItems.reduce((acc, {product, qty}) => acc + product.price * qty, 0)`. -/
def cartTotal (cache : List Product) (c : Cart) : ℚ :=
  (cartItems cache c).foldl (fun acc pq => acc + pq.1.price * (pq.2 : ℚ)) 0

theorem cartItems_cons (cache : List Product) (e : String × Int) (cs : Cart) :
    cartItems cache (e :: cs)
      = match productsById cache e.1 with
        | some pr => (pr, e.2) :: cartItems cache cs
        | none => cartItems cache cs := by
  unfold cartItems
  rw [List.filterMap_cons]
  cases productsById cache e.1 with
  | none => rfl
  | some pr => rfl

theorem itemsSum_le (cache : List Product) {c : Cart} (h : allPos c) :
    ((cartItems cache c).map Prod.snd).sum ≤ (c.map Prod.snd).sum := by
  induction c with
  | nil => simp [cartItems]
  | cons e cs ih =>
    have he : 0 < e.2 := h e (List.mem_cons_self e cs)
    have hcs : allPos cs := fun p hp => h p (List.mem_cons_of_mem e hp)
    rw [cartItems_cons]
    cases productsById cache e.1 with
    | none =>
      simp only [List.map_cons, List.sum_cons]
      have := ih hcs
      omega
    | some pr =>
      simp only [List.map_cons, List.sum_cons]
      have := ih hcs
      omega

theorem itemsSum_lt (cache : List Product) {c : Cart} (h : allPos c)
    {e : String × Int} (he : e ∈ c) (hnone : productsById cache e.1 = none) :
    ((cartItems cache c).map Prod.snd).sum < (c.map Prod.snd).sum := by
  induction c with
  | nil => cases he
  | cons e' cs ih =>
    have he' : 0 < e'.2 := h e' (List.mem_cons_self e' cs)
    have hcs : allPos cs := fun p hp => h p (List.mem_cons_of_mem e' hp)
    rw [cartItems_cons]
    rcases List.mem_cons.mp he with rfl | hmem
    · rw [hnone]
      simp only [List.map_cons, List.sum_cons]
      have := itemsSum_le cache hcs
      omega
    · cases productsById cache e'.1 with
      | none =>
        simp only [List.map_cons, List.sum_cons]
        have := ih hcs hmem
        omega
      | some pr =>
        simp only [List.map_cons, List.sum_cons]
        have := ih hcs hmem
        omega

/-- C7: the derived badge count sums every cart quantity, cached or not;
the derived line items and the total are computed only from entries whose
product id is in the local cache; consequently a cart holding an uncached
product id has a count strictly exceeding the quantity sum underlying the
total. -/
theorem c7_count_includes_uncached (cache : List Product) (c : Cart) :
    cartCount c = (c.map Prod.snd).sum ∧
    (∀ pq ∈ cartItems cache c, pq.1 ∈ cache) ∧
    cartTotal cache c
      = ((cartItems cache c).map (fun pq => pq.1.price * (pq.2 : ℚ))).sum ∧
    (allPos c → ∀ e ∈ c, productsById cache e.1 = none →
      ((cartItems cache c).map Prod.snd).sum < cartCount c) := by
  refine ⟨?_, ?_, ?_, ?_⟩
  · unfold cartCount
    rw [List.sum_eq_foldl]
  · intro pq hpq
    obtain ⟨e, _, hfe⟩ := List.mem_filterMap.mp hpq
    obtain ⟨pr, hpr, hpe⟩ := Option.map_eq_some'.mp hfe
    have : pq.1 = pr := by rw [← hpe]
    rw [this]
    exact List.mem_of_find?_eq_some hpr
  · unfold cartTotal
    rw [List.sum_eq_foldl, List.foldl_map]
  · intro hpos e he hnone
    unfold cartCount
    rw [← List.sum_eq_foldl]
    exact itemsSum_lt cache hpos he hnone

/-- Witness for `c7_count_includes_uncached`: with an empty product cache
and the cart `[("hat-01", 3)]`, the line-item quantity sum `0` is strictly
below the badge count `3`. -/
theorem c7_count_includes_uncached_witness :
    ((cartItems [] [(("hat-01" : String), (3 : Int))]).map Prod.snd).sum
      < cartCount [(("hat-01" : String), (3 : Int))] :=
  (c7_count_includes_uncached [] [(("hat-01" : String), (3 : Int))]).2.2.2
    (by unfold allPos; decide) ("hat-01", 3) (by decide) rfl

/-! ## Catalog client (`src/services/api.js`)

The transport itself (HTTP, `fetch`) is a host collaborator; the wrapper's
behaviour is a function of how the underlying `fetch` promise settles, so
that settlement is the input of the embedded functions. -/

/-- How the underlying `fetch` settles, as observed inside the `try` block:
a response (with status and parsed JSON body), a rejection with a
non-abort error, or a rejection whose `name` is `AbortError` because the
cancellation token (`AbortSignal`) fired. -/
inductive TransportOutcome (β : Type) where
  | response (status : Nat) (body : β)
  | networkError (msg : String)
  | abortError

/-- `res.ok`: HTTP status in the inclusive range 200–299. -/
def resOk (status : Nat) : Bool :=
  decide (200 ≤ status) && decide (status < 300)

/-- `fetchProducts` from `src/services/api.js`: throw on a non-ok status,
return the parsed body on success, and map an `AbortError` rejection to
the benign empty result `{items: [], total: 0}`; every other caught error
is re-thrown. -/
def fetchProducts (outcome : TransportOutcome QueryResult) : Except String QueryResult :=
  match outcome with
  | TransportOutcome.response status body =>
    if resOk status then Except.ok body
    else Except.error ("Request failed with status " ++ toString status)
  | TransportOutcome.networkError m => Except.error m
  | TransportOutcome.abortError => Except.ok { items := [], total := 0 }

/-- `fetchProductById` from `src/services/api.js`: like `fetchProducts`
but a cancelled fetch resolves to `null` (absent product). -/
def fetchProductById (outcome : TransportOutcome Product) : Except String (Option Product) :=
  match outcome with
  | TransportOutcome.response status body =>
    if resOk status then Except.ok (some body)
    else Except.error ("Request failed with status " ++ toString status)
  | TransportOutcome.networkError m => Except.error m
  | TransportOutcome.abortError => Except.ok none

/-- C8: a cancelled `fetchProducts` resolves to `{items: [], total: 0}`
and a cancelled `fetchProductById` resolves to the absent product — never
a thrown cancellation error — while every non-cancellation transport
failure (non-success status or network error) is surfaced to the caller
as a thrown failure. -/
theorem c8_cancellation_resolves_empty :
    fetchProducts TransportOutcome.abortError = Except.ok { items := [], total := 0 } ∧
    fetchProductById TransportOutcome.abortError = Except.ok none ∧
    (∀ (status : Nat) (body : QueryResult), resOk status = false →
      fetchProducts (TransportOutcome.response status body)
        = Except.error ("Request failed with status " ++ toString status)) ∧
    (∀ m, fetchProducts (TransportOutcome.networkError m) = Except.error m) ∧
    (∀ (status : Nat) (body : Product), resOk status = false →
      fetchProductById (TransportOutcome.response status body)
        = Except.error ("Request failed with status " ++ toString status)) ∧
    (∀ m, fetchProductById (TransportOutcome.networkError m) = Except.error m) := by
  refine ⟨rfl, rfl, ?_, fun m => rfl, ?_, fun m => rfl⟩
  · intro status body h
    simp [fetchProducts, h]
  · intro status body h
    simp [fetchProductById, h]

/-- Witness for `c8_cancellation_resolves_empty`: a 404 on the list
endpoint is thrown to the caller. -/
theorem c8_cancellation_resolves_empty_witness :
    fetchProducts (TransportOutcome.response 404 { items := [], total := 0 })
      = Except.error ("Request failed with status " ++ toString 404) :=
  c8_cancellation_resolves_empty.2.2.1 404 { items := [], total := 0 } (by decide)

theorem applyMin_nan {s : String} (h : jsParseFloat s = JsNum.nan) (l : List Product) :
    applyMin (some s) l = l := by
  simp [applyMin, h]

theorem applyMax_nan {s : String} (h : jsParseFloat s = JsNum.nan) (l : List Product) :
    applyMax (some s) l = l := by
  simp [applyMax, h]

/-- C3: a `minPrice` or `maxPrice` string on which `parseFloat` yields
`NaN` does not fail the query and does not apply the bound: the result is
the one of the same criteria with that bound unset. -/
theorem c3_unparseable_bound_ignored (c : Criteria) (s : String)
    (h : jsParseFloat s = JsNum.nan) :
    queryProducts { c with minPrice := some s }
      = queryProducts { c with minPrice := none } ∧
    queryProducts { c with maxPrice := some s }
      = queryProducts { c with maxPrice := none } := by
  constructor
  · unfold queryProducts filteredItems
    dsimp only
    rw [applyMin_nan h]
    rfl
  · unfold queryProducts filteredItems
    dsimp only
    rw [applyMax_nan h]
    rfl

/-- Witness for `c3_unparseable_bound_ignored`: `minPrice = "abc"` (and
`maxPrice = "abc"`) behave exactly like the unfiltered query. -/
theorem c3_unparseable_bound_ignored_witness :
    queryProducts { minPrice := some "abc" } = queryProducts ({} : Criteria) ∧
    queryProducts { maxPrice := some "abc" } = queryProducts ({} : Criteria) :=
  c3_unparseable_bound_ignored {} "abc" rfl

/-- C4: with a non-empty search term, every returned item contains the
lower-cased term as a substring of its lower-cased title or of its
lower-cased description — equivalently, no record lacking the term in both
fields ever appears in the result. -/
theorem c4_text_filter_sound (c : Criteria) (t : String)
    (hq : c.q = some t) (hne : t ≠ "") :
    ∀ p ∈ (queryProducts c).items,
      strIncludes (jsToLower p.title) (jsToLower t) = true ∨
      strIncludes (jsToLower p.description) (jsToLower t) = true := by
  intro p hp
  have h1 : p ∈ filteredItems c := by
    rw [queryProducts_items] at hp
    exact (mem_applySort c.sort _).mp hp
  have h2 : p ∈ applyQ c.q (applyCategory c.category products) :=
    (applyMin_sublist _ _).subset ((applyMax_sublist _ _).subset h1)
  rw [hq] at h2
  simp only [applyQ] at h2
  rw [if_neg (by simpa using hne)] at h2
  have h3 := List.of_mem_filter h2
  simpa using h3

/-- Witness for `c4_text_filter_sound`: the query `{q: "urbano"}` returns
`hat-02`, whose title or description indeed contains the term. -/
theorem c4_text_filter_sound_witness :
    strIncludes (jsToLower hat02.title) (jsToLower "urbano") = true ∨
    strIncludes (jsToLower hat02.description) (jsToLower "urbano") = true := by
  have hmem : hat02 ∈ (queryProducts { q := some "urbano" }).items := by
    have hitems : (queryProducts { q := some "urbano" }).items = [hat02] := by
      with_unfolding_all rfl
    rw [hitems]
    exact List.mem_singleton.mpr rfl
  exact c4_text_filter_sound { q := some "urbano" } "urbano" rfl
    (by decide) hat02 hmem

/-- A character list is "numerically led" when it starts with a digit, or
with a decimal point immediately followed by a digit — exactly the shapes
from which the `parseFloat` decimal grammar can read a number. -/
def numericStart : List Char → Bool
  | [] => false
  | [c] => c.isDigit
  | c :: d :: _ => c.isDigit || (c == '.' && d.isDigit)

/-- The bound string has a leading numeric prefix (after optional
whitespace and sign). -/
def hasNumericStart (s : String) : Bool := numericStart (afterSign s)

theorem infinityPre_false {c : Char} {rest : List Char}
    (h : ('I' == c) = false) :
    (("Infinity".data).isPrefixOf (c :: rest)) = false := by
  have hdata : "Infinity".data = 'I' :: "nfinity".data := rfl
  rw [hdata]
  simp only [List.isPrefixOf, h, Bool.false_and]

theorem parseCore_num_of_numericStart (neg : Bool) {cs : List Char}
    (h : numericStart cs = true) : ∃ v, parseCore neg cs = JsNum.num v := by
  cases cs with
  | nil => simp [numericStart] at h
  | cons c rest =>
    by_cases hd : c.isDigit
    · have hne : ('I' == c) = false := by
        apply beq_eq_false_iff_ne.mpr
        intro he
        rw [← he] at hd
        exact absurd hd (by decide)
      unfold parseCore
      rw [infinityPre_false hne, if_neg (by simp)]
      simp only [List.takeWhile_cons, hd, if_true, List.isEmpty_cons, Bool.false_and]
      rw [if_neg (by simp)]
      exact ⟨_, rfl⟩
    · have hrest : ∃ d t, rest = d :: t ∧ d.isDigit = true ∧ c = '.' := by
        cases rest with
        | nil =>
          simp only [numericStart] at h
          exact absurd h (by simp [hd])
        | cons d t =>
          simp only [numericStart, hd, Bool.false_or, Bool.and_eq_true] at h
          exact ⟨d, t, rfl, h.2, by simpa using h.1⟩
      obtain ⟨d, t, rfl, hdd, rfl⟩ := hrest
      unfold parseCore
      rw [infinityPre_false (by decide), if_neg (by simp)]
      have hdotd : ('.'.isDigit) = false := by decide
      simp only [List.takeWhile_cons, List.dropWhile_cons, hdotd, hdd, Bool.false_eq_true,
        if_false, if_true, List.isEmpty_cons, List.isEmpty_nil, Bool.true_and]
      exact ⟨_, rfl⟩

/-- C10: a bound string with a valid numeric prefix followed by trailing
garbage (e.g. `"30abc"`) is treated as parseable — the price filter is
applied with the prefix's value — and a bound on which `parseFloat` yields
`NaN` necessarily lacks a leading numeric prefix. -/
theorem c10_numeric_head_is_parsed :
    (∀ (s : String) (v : ℚ), jsParseFloat s = JsNum.num v →
      ∀ l, applyMin (some s) l = l.filter (fun p => jsGe p.price (JsNum.num v))) ∧
    (∀ (s : String) (v : ℚ), jsParseFloat s = JsNum.num v →
      ∀ l, applyMax (some s) l = l.filter (fun p => jsLe p.price (JsNum.num v))) ∧
    jsParseFloat "30abc" = JsNum.num 30 ∧
    queryProducts { minPrice := some "30abc" }
      = { items := [hoodie01, hoodie02], total := 2 } ∧
    (∀ s : String, hasNumericStart s = true → ∃ v, jsParseFloat s = JsNum.num v) := by
  refine ⟨?_, ?_, by with_unfolding_all rfl, by with_unfolding_all rfl, ?_⟩
  · intro s v h l
    simp [applyMin, h]
  · intro s v h l
    simp [applyMax, h]
  · intro s h
    exact parseCore_num_of_numericStart (signOf s) h

/-- Witness for `c10_numeric_head_is_parsed`: `minPrice = "30abc"`
filters the catalog with the bound `30` rather than being ignored. -/
theorem c10_numeric_head_is_parsed_witness :
    applyMin (some "30abc") products
      = products.filter (fun p => jsGe p.price (JsNum.num 30)) :=
  c10_numeric_head_is_parsed.1 "30abc" 30 (by with_unfolding_all rfl) products

/-! ## Supersession of in-flight requests (`App.jsx` effect + cleanup)

The load effect issues one `fetchProducts` per filter state and its
cleanup runs `controller.abort()` when the next request starts.  Request
`i` is modelled by its issue time `start i`, the arrival time `deliver i`
its network response would have, and the server payload `payload i`.  Per
the `AbortController` semantics, aborting an in-flight fetch settles it
immediately, so a request whose successor starts before its delivery
resolves at that abort time with the empty result (`fetchProducts` maps
`AbortError` to `{items: [], total: 0}`) and its server payload is never
seen; an unaborted request resolves at its delivery time with its payload.
`setItems`/`setTotal` run at resolution time; the displayed final state is
the last write in time order (later request wins a tie). -/

/-- The benign result of a cancelled request. -/
def emptyResult : QueryResult := { items := [], total := 0 }

/-- What request `i` writes into the items/total state when it resolves:
its payload, unless a successor request started before its delivery (the
cleanup aborted it first), in which case the empty result. -/
def resolveValue (n : Nat) (start deliver : Nat → Nat)
    (payload : Nat → QueryResult) (i : Nat) : QueryResult :=
  if i + 1 < n ∧ start (i + 1) < deliver i then emptyResult else payload i

/-- When request `i` resolves: at the abort time (= the successor's start)
when superseded in flight, otherwise at its delivery time. -/
def resolveTime (n : Nat) (start deliver : Nat → Nat) (i : Nat) : Nat :=
  if i + 1 < n ∧ start (i + 1) < deliver i then start (i + 1) else deliver i

/-- The last write among `(time, value)` writes: later time wins, and a
later write wins a tie. -/
def latestWrite (ws : List (Nat × QueryResult)) : Option (Nat × QueryResult) :=
  ws.foldl (fun acc w =>
    match acc with
    | none => some w
    | some w' => if w'.1 ≤ w.1 then some w else some w') none

/-- The displayed items/total state once every request has resolved. -/
def finalState (n : Nat) (start deliver : Nat → Nat)
    (payload : Nat → QueryResult) : Option QueryResult :=
  (latestWrite ((List.range n).map
    (fun i => (resolveTime n start deliver i,
               resolveValue n start deliver payload i)))).map Prod.snd

theorem latestWrite_aux (ws : List (Nat × QueryResult)) :
    ∀ w0, ws.Pairwise (fun a b => a.1 ≤ b.1) → (∀ w ∈ ws, w0.1 ≤ w.1) →
      ws.foldl (fun acc w =>
        match acc with
        | none => some w
        | some w' => if w'.1 ≤ w.1 then some w else some w') (some w0)
        = some (ws.getLastD w0) := by
  induction ws with
  | nil => intro w0 _ _; rfl
  | cons w ws ih =>
    intro w0 hp h0
    have h1 : w0.1 ≤ w.1 := h0 w (List.mem_cons_self w ws)
    rw [List.foldl_cons, List.getLastD_cons]
    simp only [if_pos h1]
    exact ih w (List.pairwise_cons.mp hp).2
      (fun w'' hw => (List.pairwise_cons.mp hp).1 w'' hw)

theorem latestWrite_mono {ws : List (Nat × QueryResult)}
    (hp : ws.Pairwise (fun a b => a.1 ≤ b.1)) :
    latestWrite ws = ws.getLast? := by
  cases ws with
  | nil => rfl
  | cons w ws =>
    unfold latestWrite
    rw [List.foldl_cons]
    have := latestWrite_aux ws w (List.pairwise_cons.mp hp).2
      (fun w'' hw => (List.pairwise_cons.mp hp).1 w'' hw)
    simp only at this
    rw [this, List.getLast?_cons, List.getLastD_eq_getLast?]

theorem resolveTime_le_next {n : Nat} {start deliver : Nat → Nat} {i : Nat}
    (h : i + 1 < n) : resolveTime n start deliver i ≤ start (i + 1) := by
  unfold resolveTime
  by_cases hc : i + 1 < n ∧ start (i + 1) < deliver i
  · rw [if_pos hc]
  · rw [if_neg hc]
    have : ¬start (i + 1) < deliver i := fun hlt => hc ⟨h, hlt⟩
    omega

theorem next_lt_resolveTime {n : Nat} {start deliver : Nat → Nat} {i : Nat}
    (hstart : ∀ j, j + 1 < n → start j < start (j + 1))
    (hsd : ∀ j, j < n → start j < deliver j)
    (h : i + 1 < n) : start (i + 1) < resolveTime n start deliver (i + 1) := by
  unfold resolveTime
  by_cases hc : i + 1 + 1 < n ∧ start (i + 1 + 1) < deliver (i + 1)
  · rw [if_pos hc]
    exact hstart (i + 1) hc.1
  · rw [if_neg hc]
    exact hsd (i + 1) h

theorem resolveTime_mono {n : Nat} {start deliver : Nat → Nat}
    (hstart : ∀ j, j + 1 < n → start j < start (j + 1))
    (hsd : ∀ j, j < n → start j < deliver j) :
    ∀ i j, i < j → j < n →
      resolveTime n start deliver i ≤ resolveTime n start deliver j := by
  intro i j
  induction j with
  | zero => intro h _; omega
  | succ k ih =>
    intro hij hkn
    rcases Nat.lt_succ_iff_lt_or_eq.mp hij with hik | rfl
    · calc resolveTime n start deliver i
          ≤ resolveTime n start deliver k := ih hik (by omega)
        _ ≤ start (k + 1) := resolveTime_le_next hkn
        _ ≤ resolveTime n start deliver (k + 1) :=
            (next_lt_resolveTime hstart hsd hkn).le
    · calc resolveTime n start deliver i
          ≤ start (i + 1) := resolveTime_le_next hkn
        _ ≤ resolveTime n start deliver (i + 1) :=
            (next_lt_resolveTime hstart hsd hkn).le

/-- C9: when request B is issued before request A resolves, A is aborted
on supersession: A's write is the empty result — its server payload is
never observed — and the displayed final state is the newest request's
value, so a slow or cancelled stale response cannot overwrite the fresher
request's results. -/
theorem c9_superseded_never_final (n : Nat) (start deliver : Nat → Nat)
    (payload : Nat → QueryResult)
    (hstart : ∀ i, i + 1 < n → start i < start (i + 1))
    (hsd : ∀ i, i < n → start i < deliver i)
    (hn : 0 < n) :
    finalState n start deliver payload
      = some (resolveValue n start deliver payload (n - 1)) ∧
    (∀ i, i + 1 < n → start (i + 1) < deliver i →
      resolveValue n start deliver payload i = emptyResult) := by
  constructor
  · obtain ⟨m, rfl⟩ : ∃ m, n = m + 1 := ⟨n - 1, by omega⟩
    unfold finalState
    rw [latestWrite_mono]
    · rw [List.range_succ, List.map_append]
      simp only [List.map_cons, List.map_nil]
      rw [List.getLast?_concat]
      simp
    · apply List.pairwise_map.mpr
      apply (List.pairwise_lt_range _).imp_of_mem
      intro a b ha hb hab
      exact resolveTime_mono hstart hsd a b hab (List.mem_range.mp hb)
  · intro i h1 h2
    unfold resolveValue
    rw [if_pos ⟨h1, h2⟩]

/-- Witness for `c9_superseded_never_final`: two requests, the second
issued (time 1) before the first's delivery (time 5); the first resolves
empty and the second's payload is the final state. -/
theorem c9_superseded_never_final_witness :
    finalState 2 (fun i => i) (fun i => i + 5) (fun i => { items := [], total := 7 + i })
      = some { items := [], total := 8 } ∧
    resolveValue 2 (fun i => i) (fun i => i + 5) (fun i => { items := [], total := 7 + i }) 0
      = emptyResult := by
  have h := c9_superseded_never_final 2 (fun i => i) (fun i => i + 5)
    (fun i => { items := [], total := 7 + i })
    (fun i hi => by dsimp only; omega) (fun i hi => by dsimp only; omega) (by omega)
  refine ⟨?_, h.2 0 (by omega) (by dsimp only; omega)⟩
  rw [h.1]
  rfl

end Shop
